import Mathlib

/-!
Verification of the varsens Saltelli sensitivity engine
(`varsens/saltelli.py`) against its specification.

Numeric tables are modelled as lists of rows over `ℚ`; numpy operations
are modelled by the corresponding list operations: elementwise `zipWith`,
a fold of rows for axis-0 sums, slicing by `take`/`drop`.
-/

namespace Saltelli

/-- Elementwise sum of two vectors (numpy `+` on equally shaped rows). -/
def vadd (u v : List ℚ) : List ℚ := List.zipWith (· + ·) u v

/-- Elementwise difference of two vectors (numpy `-`). -/
def vsub (u v : List ℚ) : List ℚ := List.zipWith (· - ·) u v

/-- Elementwise product of two vectors (numpy `*`). -/
def vmul (u v : List ℚ) : List ℚ := List.zipWith (· * ·) u v

/-- Elementwise quotient of two vectors (numpy `/`). -/
def vdiv (u v : List ℚ) : List ℚ := List.zipWith (· / ·) u v

/-- numpy elementwise product of two `(n, m)` tables. -/
def tmul (a b : List (List ℚ)) : List (List ℚ) := List.zipWith vmul a b

/-- Python builtin `sum` over the rows of a 2-D numpy array (also
`numpy.sum(-, axis=0)`): fold the rows with elementwise `+`; the initial
scalar `0` of Python's `sum` is absorbed by the first row. -/
def npsumRows : List (List ℚ) → List ℚ
  | [] => []
  | r :: rs => rs.foldl vadd r

/-- `numpy.var(t, axis=0, ddof=1)`: per column, the mean of the column is
subtracted, squares are summed, and the sum is divided by `N - 1` where
`N` is the number of rows. -/
def npvar0 (t : List (List ℚ)) : List ℚ :=
  let N : ℚ := t.length
  let mean := (npsumRows t).map (· / N)
  (npsumRows (t.map (fun r => (vsub r mean).map (fun x => x * x)))).map (· / (N - 1))

/-- Column `c` of a table, used to state the per-output-component claims. -/
def col (t : List (List ℚ)) (c : ℕ) : List ℚ := t.map (fun r => r.getD c 0)

/-- Dot product of two columns. -/
def dotQ (u v : List ℚ) : ℚ := (List.zipWith (· * ·) u v).sum

/-- The numeric state of an `Objective` as consumed by
`Varsens.compute_varsens`: the four evaluation tables (after any NaN
pruning, all values finite) together with the constructor-supplied design
counts `k` and `n`.  `fM_1` and `fM_2` are `n' × m` tables, `fN_j` and
`fN_nj` are `k`-long lists of `n' × m` tables. -/
structure QObj where
  k : ℕ
  n : ℕ
  fM_1 : List (List ℚ)
  fM_2 : List (List ℚ)
  fN_j : List (List (List ℚ))
  fN_nj : List (List (List ℚ))
deriving DecidableEq

namespace QObj

/-- Line 577: `E_2 = sum(fM_1*fM_2) / n` with `n` the constructor count. -/
def E_2 (o : QObj) : List ℚ :=
  (npsumRows (tmul o.fM_1 o.fM_2)).map (· / (o.n : ℚ))

/-- Line 583: `var_y = numpy.var(concatenate((fM_1, fM_2)), axis=0, ddof=1)`. -/
def var_y (o : QObj) : List ℚ := npvar0 (o.fM_1 ++ o.fM_2)

/-- Lines 591-593: `U_j = sum(fM_1*fN_j, axis=1)/(n-1)`, then
`U_j += sum(fM_2*fN_nj, axis=1)/(n-1)`, then `U_j /= 2`. -/
def U_j (o : QObj) : List (List ℚ) :=
  let a := (o.fN_j.map (fun t => npsumRows (tmul o.fM_1 t))).map
    (fun v => v.map (· / ((o.n : ℚ) - 1)))
  let b := (o.fN_nj.map (fun t => npsumRows (tmul o.fM_2 t))).map
    (fun v => v.map (· / ((o.n : ℚ) - 1)))
  (List.zipWith vadd a b).map (fun v => v.map (· / 2))

/-- Lines 594-596: `U_nj = sum(fM_1*fN_nj, axis=1)/(n-1)`, then
`U_nj += sum(fM_2*fN_j, axis=1)/(n-1)`, then `U_nj /= 2`. -/
def U_nj (o : QObj) : List (List ℚ) :=
  let a := (o.fN_nj.map (fun t => npsumRows (tmul o.fM_1 t))).map
    (fun v => v.map (· / ((o.n : ℚ) - 1)))
  let b := (o.fN_j.map (fun t => npsumRows (tmul o.fM_2 t))).map
    (fun v => v.map (· / ((o.n : ℚ) - 1)))
  (List.zipWith vadd a b).map (fun v => v.map (· / 2))

/-- Line 608: `sens[j] = (U_j[j] - E_2) / var_y` for each `j < k`. -/
def sens (o : QObj) : List (List ℚ) :=
  (o.U_j).map (fun u => vdiv (vsub u o.E_2) o.var_y)

/-- Line 609: `sens_t[j] = 1 - (U_nj[j] - E_2) / var_y` for each `j < k`. -/
def sens_t (o : QObj) : List (List ℚ) :=
  (o.U_nj).map (fun u => (vdiv (vsub u o.E_2) o.var_y).map (fun x => 1 - x))

/-- Entry `(p, a, q, b)` of `numpy.tensordot(A, B, axes=([1],[1]))` for two
`(k, n, m)` tables: the sample axes are contracted, giving
`sum_i A[p][i][a] * B[q][i][b]`. -/
def tdot (A B : List (List (List ℚ))) (p a q b : ℕ) : ℚ :=
  dotQ (col (A.getD p []) a) (col (B.getD q []) b)

/-- Lines 612-616: entry `(p, a, q, b)` of `sens_2`.  The array built by the
code has shape `(k, m, k, m)`; subtracting `E_2` (shape `(m,)`) and dividing
by `var_y` broadcast along the last axis, i.e. use component `b`. -/
def sens_2 (o : QObj) (p a q b : ℕ) : ℚ :=
  ((tdot o.fN_nj o.fN_j p a q b + tdot o.fN_j o.fN_nj p a q b)
      / (2 * ((o.n : ℚ) - 1))
    - (o.E_2).getD b 0) / (o.var_y).getD b 0

/-- Lines 618-622: entry `(p, a, q, b)` of `sens_2n`, the same-family
variant pairing `fN_nj` with `fN_nj` and `fN_j` with `fN_j`. -/
def sens_2n (o : QObj) (p a q b : ℕ) : ℚ :=
  ((tdot o.fN_nj o.fN_nj p a q b + tdot o.fN_j o.fN_j p a q b)
      / (2 * ((o.n : ℚ) - 1))
    - (o.E_2).getD b 0) / (o.var_y).getD b 0

/-- Well-formedness of an evaluation-table state: `fM_2` matches `fM_1`'s
row count (the post-prune count `n'`), every row has `m` components, and
the resample tables are `k`-long lists of `n' × m` tables. -/
def WF (o : QObj) (m : ℕ) : Prop :=
  o.fM_2.length = o.fM_1.length ∧
  (∀ r ∈ o.fM_1, r.length = m) ∧
  (∀ r ∈ o.fM_2, r.length = m) ∧
  o.fN_j.length = o.k ∧
  o.fN_nj.length = o.k ∧
  (∀ t ∈ o.fN_j, t.length = o.fM_1.length ∧ ∀ r ∈ t, r.length = m) ∧
  (∀ t ∈ o.fN_nj, t.length = o.fM_1.length ∧ ∀ r ∈ t, r.length = m)

instance (o : QObj) (m : ℕ) : Decidable (WF o m) := by
  unfold WF; infer_instance

end QObj

/-- Model of an objective value fed to / stored by `Objective.load`: a
finite rational, an IEEE NaN, or an infinity (the only non-finite classes
the reconciliation clause of the spec distinguishes). -/
inductive PVal where
  | num : ℚ → PVal
  | nan : PVal
  | inf : PVal
deriving DecidableEq

/-- `numpy.isnan` on the modelled values: true exactly on NaN (in
particular, false on infinities). -/
def PVal.isnan : PVal → Bool
  | .nan => true
  | _ => false

/-- `numpy.isfinite` on the modelled values: true exactly on finite
numbers (used only to state the spec's "non-finite" clause). -/
def PVal.isfinite : PVal → Bool
  | .num _ => true
  | _ => false

/-- Numeric reading of a modelled value; only applied to tables whose
entries are all finite. -/
def PVal.toRat : PVal → ℚ
  | .num q => q
  | _ => 0

/-- The four evaluation tables of an `Objective` as filled by
`Objective.load`, before conversion to numbers, plus the constructor
counts. -/
structure ObjState where
  k : ℕ
  n : ℕ
  fM_1 : List (List PVal)
  fM_2 : List (List PVal)
  fN_j : List (List (List PVal))
  fN_nj : List (List (List PVal))
deriving DecidableEq

/-- `numpy.isnan` applied to a whole table. -/
def isnanT (t : List (List PVal)) : List (List Bool) :=
  t.map (fun r => r.map PVal.isnan)

/-- `numpy.logical_or` of two boolean tables. -/
def orT (a b : List (List Bool)) : List (List Bool) :=
  List.zipWith (List.zipWith (· || ·)) a b

/-- `numpy.delete(t, nans, axis=0)`: drop the rows whose index occurs in
`nans`. -/
def deleteIdx (nans : List ℕ) (t : List α) : List α :=
  (t.enum.filter (fun p => !(nans.contains p.1))).map Prod.snd

namespace ObjState

/-- Lines 477-480 of `Objective.load`: the elementwise `isnan` tables of
`fM_1` and `fM_2` are or-ed, then, looping over the parameters, or-ed
with the `isnan` tables of `fN_j[i]` and `fN_nj[i]`. -/
def orFold (o : ObjState) : List (List Bool) :=
  (List.range o.k).foldl
    (fun acc i => orT (orT acc (isnanT (o.fN_j.getD i []))) (isnanT (o.fN_nj.getD i [])))
    (orT (isnanT o.fM_1) (isnanT o.fM_2))

/-- Lines 482-486 of `Objective.load`: only column 0 of the or-ed
`isnan` table is kept, and the list of flagged row indices is
collected. -/
def nanRows (o : ObjState) : List ℕ :=
  (List.range ((o.orFold.map (fun r => r.getD 0 false)).length)).filter
    (fun i => (o.orFold.map (fun r => r.getD 0 false)).getD i false)

/-- Lines 488-492 of `Objective.load`: the flagged rows are deleted from
`fM_1` and `fM_2` along axis 0 and from every `fN_j[i]`, `fN_nj[i]` along
axis 1. -/
def reconcile (o : ObjState) : ObjState :=
  let nans := o.nanRows
  { o with
    fM_1 := deleteIdx nans o.fM_1
    fM_2 := deleteIdx nans o.fM_2
    fN_j := o.fN_j.map (deleteIdx nans)
    fN_nj := o.fN_nj.map (deleteIdx nans) }

/-- Conversion of the loaded tables to numbers (meaningful when every
surviving entry is finite). -/
def toQ (o : ObjState) : QObj :=
  { k := o.k
    n := o.n
    fM_1 := o.fM_1.map (fun r => r.map PVal.toRat)
    fM_2 := o.fM_2.map (fun r => r.map PVal.toRat)
    fN_j := o.fN_j.map (fun t => t.map (fun r => r.map PVal.toRat))
    fN_nj := o.fN_nj.map (fun t => t.map (fun r => r.map PVal.toRat)) }

end ObjState

/-- Lines 449-470 of `Objective.load` at the default output scaling 1.0:
the stacked value table `x` is sliced into `fM_1 = x[0:n]`,
`fM_2 = x[n:2n]`, `fN_j[p] = x[2n+pn : 2n+(p+1)n]`,
`fN_nj[p] = x[2n+kn+pn : 2n+kn+(p+1)n]`. -/
def loadPre (k n : ℕ) (x : List (List PVal)) : ObjState :=
  { k := k
    n := n
    fM_1 := x.take n
    fM_2 := (x.drop n).take n
    fN_j := (List.range k).map (fun p => (x.drop (2 * n + p * n)).take n)
    fN_nj := (List.range k).map (fun p => (x.drop (2 * n + k * n + p * n)).take n) }

/-- `Objective.load` (lines 449-495) at the default output scaling 1.0:
the stacked value table `x` must have `2n(1+k)` rows (else the length
exception of line 472 is raised, modelled as `none`); the rows are
sliced into the four tables and the NaN reconciliation is applied. -/
def objLoad (k n : ℕ) (x : List (List PVal)) : Option ObjState :=
  if x.length = 2 * n * (1 + k) then some (loadPre k n x).reconcile else none

/-- Bessel-style sample variance of a list of values with an explicit
divisor `d` (the spec's "sample variance with divisor d": squared
deviations from the mean, summed, divided by `d`). -/
def sampleVar (l : List ℚ) (d : ℚ) : ℚ :=
  ((l.map (fun x => (x - l.sum / l.length) ^ 2)).sum) / d

/-- Keep the rows of a table whose index is not flagged. -/
def keepRows (flag : ℕ → Bool) (t : List α) : List α :=
  (t.enum.filter (fun p => !(flag p.1))).map Prod.snd

/-- The row flag the pruning of `Objective.load` actually computes,
stated directly on the stacked input `x`: sample row `i` is flagged when
the first output component of any of `fM_1[i]`, `fM_2[i]`, `fN_j[p][i]`,
`fN_nj[p][i]` is NaN. -/
def nanFlagSpec (k n : ℕ) (x : List (List PVal)) (i : ℕ) : Bool :=
  ((x.getD i []).getD 0 (PVal.num 0)).isnan
    || ((x.getD (n + i) []).getD 0 (PVal.num 0)).isnan
    || ((List.range k).any (fun p =>
          ((x.getD (2 * n + p * n + i) []).getD 0 (PVal.num 0)).isnan
            || ((x.getD (2 * n + k * n + p * n + i) []).getD 0 (PVal.num 0)).isnan))

/-- The column overwrite `N_j[i,:,i] = M_1[:,i]` of line 124, applied to
one copy `M`: per row, entry `i` of `M`'s row is replaced by entry `i`
of `M_1`'s row. -/
def setColStep (M_1 : List (List ℚ)) (i : ℕ) (M : List (List ℚ)) : List (List ℚ) :=
  List.zipWith (fun r2 r1 => r2.set i (r1.getD i 0)) M M_1

/-- `Sample.generate_N_j` (lines 113-126): allocate `k` copies of the
second argument (`numpy.array([M_2]*k)` copies its input), then, looping
over `i`, overwrite column `i` of copy `i` with column `i` of the first
argument. -/
def generate_N_j (k : ℕ) (M_1 M_2 : List (List ℚ)) : List (List (List ℚ)) :=
  (List.range k).foldl
    (fun N i => N.set i (setColStep M_1 i (N.getD i [])))
    (List.replicate k M_2)

/-- Lines 86-102 of `Sample.__init__`, shared by the construction paths
once the `2n × k` table `x` is in hand: `M_1` and `M_2` are the scaled
halves `x[0:n]` and `x[n:2n]`, and the fixed-seed decorrelation shuffle
(modelled as an opaque row permutation `shuffle`) is applied to `M_2`
alone, exactly when the sample was built from the `raw` argument. -/
def buildM (rawProvided : Bool) (n : ℕ)
    (scaling : List (List ℚ) → List (List ℚ))
    (shuffle : List (List ℚ) → List (List ℚ))
    (x : List (List ℚ)) : List (List ℚ) × List (List ℚ) :=
  let M_1 := scaling (x.take n)
  let M_2 := scaling ((x.drop n).take n)
  (M_1, if rawProvided then shuffle M_2 else M_2)

/-- The `ghalton` sequence source, modelled as a stream of points read
off at increasing positions: `seq.get(c)` starting at position `pos`
returns the `c` points at positions `pos, …, pos+c-1` together with the
advanced position. -/
def haltonGet (seq : ℕ → List ℚ) (pos c : ℕ) : List (List ℚ) × ℕ :=
  ((List.range c).map (fun i => seq (pos + i)), pos + c)

/-- Fresh-generation path of `Sample.__init__` (lines 78-95): request
and drop `20k + discard` points, request `2n` further points, scale the
halves.  Returns `(M_1, M_2)` together with the number of burn-in points
that were requested and discarded. -/
def sampleFresh (k n discard : ℕ) (scaling : List (List ℚ) → List (List ℚ))
    (seq : ℕ → List ℚ) : (List (List ℚ) × List (List ℚ)) × ℕ :=
  let burn := haltonGet seq 0 (20 * k + discard)
  let draw := haltonGet seq burn.2 (2 * n)
  let x := draw.1
  ((scaling (x.take n), scaling ((x.drop n).take n)), burn.1.length)

/-- `Varsens.__init__` line 555 builds the fresh sample as
`Sample(k, n, scaling_func, verbose)`: the positional `verbose` argument
lands in `Sample`'s `discard` parameter and is cast with `int(...)`
(line 83), so the estimator path runs with burn-in `20k + 1` when
`verbose` is true and `20k` otherwise. -/
def varsensFreshSample (k n : ℕ) (verbose : Bool)
    (scaling : List (List ℚ) → List (List ℚ)) (seq : ℕ → List ℚ) :
    (List (List ℚ) × List (List ℚ)) × ℕ :=
  sampleFresh k n (if verbose then 1 else 0) scaling seq

/-- Line 73: the raw-path shape error message — a fixed string naming no
dimensions. -/
def rawShapeMsg : String := "Raw sample dimensions do not match specified dimensions"

/-- Python `str((r, c))` as it appears in the load-path message. -/
def shapeStr (r c : ℕ) : String := "(" ++ toString r ++ ", " ++ toString c ++ ")"

/-- Python `"(%d,%d)" % (r, c)` as it appears in the load-path message. -/
def shapeFmt (r c : ℕ) : String := "(" ++ toString r ++ "," ++ toString c ++ ")"

/-- Line 249: the load-path shape error message, which interpolates the
actual shape and the two accepted shapes. -/
def loadShapeMsg (k n r c : ℕ) : String :=
  "Loaded sample has shape " ++ shapeStr r c ++ ". Must have shape "
    ++ shapeFmt (2 * n) k ++ " or " ++ shapeFmt (2 * n * (1 + k)) k ++ "."

/-- Lines 69-73 of `Sample.__init__`: a `raw` array whose shape `(r, c)`
differs from `(2n, k)` raises the fixed message. -/
def sampleRawCheck (k n r c : ℕ) : Except String Unit :=
  if r = 2 * n ∧ c = k then .ok () else .error rawShapeMsg

/-- Lines 226-249 of `Sample.load`: a loaded array of shape `(r, c)` is
accepted as an unscaled `(2n, k)` design or as a flattened
`(2n(1+k), k)` design; any other shape raises the interpolated
message. -/
def sampleLoadCheck (k n r c : ℕ) : Except String Unit :=
  if r = 2 * n ∧ c = k then .ok ()
  else if r = 2 * n * (1 + k) ∧ c = k then .ok ()
  else .error (loadShapeMsg k n r c)

/-- A message reports a piece of text when that text occurs contiguously
inside it. -/
def Reports (msg sub : String) : Prop := sub.data <:+: msg.data

instance (msg sub : String) : Decidable (Reports msg sub) :=
  List.decidableInfix sub.data msg.data

/-- The sequence of sample rows at which `Objective.__init__`
(lines 307-355) invokes the objective function when generating fresh
values: the probe `f(M_1[0])`, the loop over `M_1[1:]`, the loop over
`M_2`, then for each parameter in turn the rows of `N_j[p]`, then for
each parameter in turn the rows of `N_nj[p]`. -/
def evalTrace (k n : ℕ) (M_1 M_2 : List (List ℚ))
    (N_j N_nj : List (List (List ℚ))) : List (List ℚ) :=
  [M_1.getD 0 []]
    ++ (List.range (n - 1)).map (fun i => M_1.getD (i + 1) [])
    ++ (List.range n).map (fun i => M_2.getD i [])
    ++ (List.range k).flatMap
        (fun p => (List.range n).map (fun i => (N_j.getD p []).getD i []))
    ++ (List.range k).flatMap
        (fun p => (List.range n).map (fun i => (N_nj.getD p []).getD i []))

/-- The tables `Objective.__init__` stores when generating fresh values:
`fM_1[0]` receives the probe result, every other slot receives the
objective applied to the correspondingly indexed sample row. -/
def objEval (f : List ℚ → List ℚ) (k n : ℕ) (M_1 M_2 : List (List ℚ))
    (N_j N_nj : List (List (List ℚ))) : QObj :=
  let test := f (M_1.getD 0 [])
  { k := k
    n := n
    fM_1 := test :: (List.range (n - 1)).map (fun i => f (M_1.getD (i + 1) []))
    fM_2 := (List.range n).map (fun i => f (M_2.getD i []))
    fN_j := (List.range k).map
      (fun p => (List.range n).map (fun i => f ((N_j.getD p []).getD i [])))
    fN_nj := (List.range k).map
      (fun p => (List.range n).map (fun i => f ((N_nj.getD p []).getD i []))) }

/-- Concrete loaded objective input for `k = 1`, `n = 3`, one output
component: `2·3·(1+1) = 12` stacked rows, with a NaN in the first row
(so exactly one sample row is pruned and `n' = 2 < n = 3`). -/
def exX : List (List PVal) :=
  [[.nan], [.num 1], [.num 2],
   [.num 1], [.num 3], [.num 5],
   [.num 2], [.num 1], [.num 1],
   [.num 0], [.num 2], [.num 4]]

/-- The reconciled state `Objective.load` produces from `exX`. -/
def exO : ObjState :=
  { k := 1
    n := 3
    fM_1 := [[.num 1], [.num 2]]
    fM_2 := [[.num 3], [.num 5]]
    fN_j := [[[.num 1], [.num 1]]]
    fN_nj := [[[.num 2], [.num 4]]] }

/-- Numeric form of `exO` (every surviving entry is finite). -/
def exQ : QObj := exO.toQ

/-- Concrete loaded objective input for `k = 1`, `n = 2`, one output
component, whose first row holds an infinity (non-finite but not NaN). -/
def exX4 : List (List PVal) :=
  [[.inf], [.num 1],
   [.num 2], [.num 3],
   [.num 4], [.num 5],
   [.num 6], [.num 7]]

/-- The state `Objective.load` produces from `exX4`: nothing is pruned,
the infinite row survives. -/
def exO4 : ObjState :=
  { k := 1
    n := 2
    fM_1 := [[.inf], [.num 1]]
    fM_2 := [[.num 2], [.num 3]]
    fN_j := [[[.num 4], [.num 5]]]
    fN_nj := [[[.num 6], [.num 7]]] }

/-- Concrete sample matrices for the evaluation-order witness
(`k = 1`, `n = 2`). -/
def exM_1 : List (List ℚ) := [[0], [1]]

def exM_2 : List (List ℚ) := [[2], [3]]

def exN_j : List (List (List ℚ)) := [[[4], [5]]]

def exN_nj : List (List (List ℚ)) := [[[6], [7]]]

/-- Concrete objective function for the evaluation-order witness. -/
def exF : List ℚ → List ℚ := fun v => [v.sum + 1]

/-- Concrete `2 × 2` matrices for the resample-derivation witness. -/
def exP : List (List ℚ) := [[1, 2], [3, 4]]

def exR : List (List ℚ) := [[5, 6], [7, 8]]

/-- Concrete point stream for the burn-in theorems: position `i` is the
1-dimensional point `[i]`. -/
def exSeq : ℕ → List ℚ := fun i => [(i : ℚ)]

/-! ### Generic list lemmas -/

theorem getD_zipWith' (f : α → β → γ) (d₁ : α) (d₂ : β) (e : γ) :
    ∀ (u : List α) (v : List β) (c : ℕ), c < u.length → c < v.length →
      (List.zipWith f u v).getD c e = f (u.getD c d₁) (v.getD c d₂)
  | [], _, _, h, _ => absurd h (by simp)
  | _ :: _, [], _, _, h => absurd h (by simp)
  | _ :: _, _ :: _, 0, _, _ => rfl
  | _ :: u, _ :: v, c + 1, hu, hv => by
    simpa using getD_zipWith' f d₁ d₂ e u v c
      (Nat.lt_of_succ_lt_succ hu) (Nat.lt_of_succ_lt_succ hv)

theorem getD_map' (f : α → β) (d : α) (e : β) :
    ∀ (l : List α) (c : ℕ), c < l.length → (l.map f).getD c e = f (l.getD c d)
  | [], _, h => absurd h (by simp)
  | _ :: _, 0, _ => rfl
  | _ :: l, c + 1, h => by
    simpa using getD_map' f d e l c (Nat.lt_of_succ_lt_succ h)

theorem length_foldl_vadd :
    ∀ (rs : List (List ℚ)) (init : List ℚ),
      (∀ r ∈ rs, r.length = init.length) → (rs.foldl vadd init).length = init.length
  | [], _, _ => rfl
  | r :: rs, init, h => by
    have hv : (vadd init r).length = init.length := by
      simp [vadd, h r (by simp)]
    rw [List.foldl_cons,
      length_foldl_vadd rs (vadd init r)
        (fun s hs => by rw [h s (by simp [hs]), hv])]
    exact hv

theorem length_npsumRows (t : List (List ℚ)) (m : ℕ) (ht : t ≠ [])
    (hm : ∀ r ∈ t, r.length = m) : (npsumRows t).length = m := by
  match t, ht with
  | r :: rs, _ =>
    have hr : r.length = m := hm r (by simp)
    rw [show npsumRows (r :: rs) = rs.foldl vadd r from rfl,
      length_foldl_vadd rs r (fun s hs => by rw [hm s (by simp [hs]), hr])]
    exact hr

theorem getD_foldl_vadd :
    ∀ (rs : List (List ℚ)) (init : List ℚ) (c : ℕ), c < init.length →
      (∀ r ∈ rs, c < r.length) →
      (rs.foldl vadd init).getD c 0 = init.getD c 0 + (col rs c).sum
  | [], init, c, _, _ => by simp [col]
  | r :: rs, init, c, hi, hr => by
    have h1 : c < (vadd init r).length := by
      simp [vadd]
      exact ⟨hi, hr r (by simp)⟩
    rw [List.foldl_cons,
      getD_foldl_vadd rs (vadd init r) c h1 (fun s hs => hr s (by simp [hs]))]
    simp only [vadd]
    rw [getD_zipWith' (· + ·) 0 0 0 init r c hi (hr r (by simp))]
    simp [col]
    ring

theorem getD_npsumRows (t : List (List ℚ)) (c : ℕ)
    (h : ∀ r ∈ t, c < r.length) :
    (npsumRows t).getD c 0 = (col t c).sum := by
  match t with
  | [] => simp [npsumRows, col]
  | r :: rs =>
    rw [show npsumRows (r :: rs) = rs.foldl vadd r from rfl,
      getD_foldl_vadd rs r c (h r (by simp)) (fun s hs => h s (by simp [hs]))]
    simp [col]

theorem mem_tmul_bound (c : ℕ) :
    ∀ (a b : List (List ℚ)), (∀ r ∈ a, c < r.length) → (∀ r ∈ b, c < r.length) →
      ∀ r ∈ tmul a b, c < r.length
  | [], _, _, _ => by simp [tmul]
  | _ :: _, [], _, _ => by simp [tmul]
  | x :: a, y :: b, ha, hb => by
    intro r hr
    rw [show tmul (x :: a) (y :: b) = vmul x y :: tmul a b from rfl] at hr
    rcases List.mem_cons.1 hr with h | h
    · subst h
      simp [vmul]
      exact ⟨ha x (by simp), hb y (by simp)⟩
    · exact mem_tmul_bound c a b (fun s hs => ha s (by simp [hs]))
        (fun s hs => hb s (by simp [hs])) r h

theorem col_tmul (c : ℕ) :
    ∀ (a b : List (List ℚ)), a.length = b.length →
      (∀ r ∈ a, c < r.length) → (∀ r ∈ b, c < r.length) →
      col (tmul a b) c = List.zipWith (· * ·) (col a c) (col b c)
  | [], [], _, _, _ => rfl
  | x :: a, y :: b, hab, ha, hb => by
    rw [show tmul (x :: a) (y :: b) = vmul x y :: tmul a b from rfl]
    simp only [col, List.map_cons, List.zipWith_cons_cons]
    rw [List.cons.injEq]
    refine ⟨?_, ?_⟩
    · simp only [vmul]
      exact getD_zipWith' (· * ·) 0 0 0 x y c (ha x (by simp)) (hb y (by simp))
    · have := col_tmul c a b (by simpa using hab)
        (fun s hs => ha s (by simp [hs])) (fun s hs => hb s (by simp [hs]))
      simpa [col] using this

theorem getD_npsumRows_tmul (a b : List (List ℚ)) (c : ℕ)
    (hab : a.length = b.length)
    (ha : ∀ r ∈ a, c < r.length) (hb : ∀ r ∈ b, c < r.length) :
    (npsumRows (tmul a b)).getD c 0 = dotQ (col a c) (col b c) := by
  rw [getD_npsumRows (tmul a b) c (mem_tmul_bound c a b ha hb),
    col_tmul c a b hab ha hb, dotQ]

theorem getD_mem : ∀ (l : List α) (i : ℕ) (d : α), i < l.length → l.getD i d ∈ l
  | [], _, _, h => absurd h (by simp)
  | a :: _, 0, _, _ => by simp
  | a :: l, i + 1, d, h => by
    simp only [List.getD_cons_succ]
    exact List.mem_cons_of_mem a (getD_mem l i d (Nat.lt_of_succ_lt_succ h))

theorem lt_length_foldl_vadd :
    ∀ (rs : List (List ℚ)) (init : List ℚ) (c : ℕ), c < init.length →
      (∀ r ∈ rs, c < r.length) → c < (rs.foldl vadd init).length
  | [], _, _, hi, _ => hi
  | r :: rs, init, c, hi, hr => by
    rw [List.foldl_cons]
    refine lt_length_foldl_vadd rs (vadd init r) c ?_ (fun s hs => hr s (by simp [hs]))
    simp [vadd]
    exact ⟨hi, hr r (by simp)⟩

theorem lt_length_npsumRows (t : List (List ℚ)) (c : ℕ) (ht : t ≠ [])
    (h : ∀ r ∈ t, c < r.length) : c < (npsumRows t).length := by
  match t, ht with
  | r :: rs, _ =>
    rw [show npsumRows (r :: rs) = rs.foldl vadd r from rfl]
    exact lt_length_foldl_vadd rs r c (h r (by simp)) (fun s hs => h s (by simp [hs]))

theorem col_append (a b : List (List ℚ)) (c : ℕ) :
    col (a ++ b) c = col a c ++ col b c := by
  simp [col]

theorem col_length (t : List (List ℚ)) (c : ℕ) : (col t c).length = t.length := by
  simp [col]

/-! ### Entry formulas of the estimator -/

theorem E_2_entry (o : QObj) (m : ℕ) (hw : o.WF m) (h1 : 1 ≤ o.fM_1.length)
    (c : ℕ) (hc : c < m) :
    (o.E_2).getD c 0 = dotQ (col o.fM_1 c) (col o.fM_2 c) / (o.n : ℚ) := by
  obtain ⟨h21, hm1, hm2, _, _, _, _⟩ := hw
  have hb1 : ∀ r ∈ o.fM_1, c < r.length := fun r hr => by rw [hm1 r hr]; exact hc
  have hb2 : ∀ r ∈ o.fM_2, c < r.length := fun r hr => by rw [hm2 r hr]; exact hc
  have hlen : (tmul o.fM_1 o.fM_2).length = o.fM_1.length := by
    simp [tmul, h21]
  have ht : tmul o.fM_1 o.fM_2 ≠ [] := by
    intro hnil
    rw [hnil] at hlen
    simp at hlen
    omega
  rw [QObj.E_2,
    getD_map' (· / (o.n : ℚ)) 0 0 _ c
      (lt_length_npsumRows _ c ht (mem_tmul_bound c _ _ hb1 hb2)),
    getD_npsumRows_tmul o.fM_1 o.fM_2 c h21.symm hb1 hb2]

theorem npvar0_eq (t : List (List ℚ)) :
    npvar0 t =
      (npsumRows (t.map (fun r =>
        (vsub r ((npsumRows t).map (· / (t.length : ℚ)))).map (fun x => x * x)))).map
        (· / ((t.length : ℚ) - 1)) := rfl

theorem var_y_entry (o : QObj) (m : ℕ) (hw : o.WF m) (h1 : 1 ≤ o.fM_1.length)
    (c : ℕ) (hc : c < m) :
    (o.var_y).getD c 0 =
      sampleVar (col o.fM_1 c ++ col o.fM_2 c)
        (((col o.fM_1 c ++ col o.fM_2 c).length : ℚ) - 1) := by
  obtain ⟨h21, hm1, hm2, _, _, _, _⟩ := hw
  set t := o.fM_1 ++ o.fM_2 with ht_def
  have hbt : ∀ r ∈ t, c < r.length := by
    intro r hr
    rcases List.mem_append.1 hr with h | h
    · rw [hm1 r h]; exact hc
    · rw [hm2 r h]; exact hc
  have htne : t ≠ [] := by
    intro hnil
    rw [ht_def] at hnil
    rw [(List.append_eq_nil.1 hnil).1] at h1
    simp at h1
  have hmean : c < ((npsumRows t).map (· / (t.length : ℚ))).length := by
    rw [List.length_map]
    exact lt_length_npsumRows t c htne hbt
  set mean := (npsumRows t).map (· / (t.length : ℚ)) with hmean_def
  have hbsq : ∀ r ∈ t.map (fun r => (vsub r mean).map (fun x => x * x)),
      c < r.length := by
    intro r hr
    rcases List.mem_map.1 hr with ⟨s, hs, rfl⟩
    simp [vsub]
    exact ⟨hbt s hs, hmean⟩
  have htsq : t.map (fun r => (vsub r mean).map (fun x => x * x)) ≠ [] := by
    intro hnil
    exact htne (List.map_eq_nil_iff.1 hnil)
  have hμ : mean.getD c 0 = (col t c).sum / (t.length : ℚ) := by
    rw [hmean_def,
      getD_map' (· / (t.length : ℚ)) 0 0 _ c (lt_length_npsumRows t c htne hbt),
      getD_npsumRows t c hbt]
  rw [QObj.var_y, npvar0_eq, ← hmean_def,
    getD_map' (· / ((t.length : ℚ) - 1)) 0 0 _ c
      (lt_length_npsumRows _ c htsq hbsq),
    getD_npsumRows _ c hbsq]
  have hcol : col (t.map (fun r => (vsub r mean).map (fun x => x * x))) c =
      t.map (fun r => ((vsub r mean).map (fun x => x * x)).getD c 0) := by
    simp [col, List.map_map]
  rw [hcol]
  have hpt : ∀ r ∈ t, ((vsub r mean).map (fun x => x * x)).getD c 0 =
      (r.getD c 0 - mean.getD c 0) * (r.getD c 0 - mean.getD c 0) := by
    intro r hr
    have hl : c < (vsub r mean).length := by
      simp [vsub]
      exact ⟨hbt r hr, hmean⟩
    rw [getD_map' (fun x => x * x) 0 0 _ c hl]
    simp only [vsub]
    rw [getD_zipWith' (· - ·) 0 0 0 r mean c (hbt r hr) hmean]
  rw [List.map_congr_left hpt]
  rw [sampleVar, ← col_append, hμ]
  have hlen2 : ((col t c).length : ℚ) = (t.length : ℚ) := by
    rw [col_length]
  rw [hlen2]
  have hmm : List.map (fun x => (x - (col t c).sum / (t.length : ℚ)) ^ 2) (col t c) =
      List.map (fun r => (r.getD c 0 - (col t c).sum / (t.length : ℚ)) *
        (r.getD c 0 - (col t c).sum / (t.length : ℚ))) t := by
    rw [col, List.map_map]
    apply List.map_congr_left
    intro r _
    simp [pow_two]
  rw [hmm]

theorem lt_length_npsumRows_tmul (a b : List (List ℚ)) (c : ℕ)
    (ha1 : 1 ≤ a.length) (hb1 : 1 ≤ b.length)
    (ha : ∀ r ∈ a, c < r.length) (hb : ∀ r ∈ b, c < r.length) :
    c < (npsumRows (tmul a b)).length := by
  refine lt_length_npsumRows _ c ?_ (mem_tmul_bound c a b ha hb)
  intro hnil
  have h0 : (tmul a b).length = 0 := by rw [hnil]; rfl
  rw [tmul, List.length_zipWith] at h0
  omega

theorem fN_j_facts (o : QObj) (m : ℕ) (hw : o.WF m) (p : ℕ) (hp : p < o.k) :
    (o.fN_j.getD p []).length = o.fM_1.length ∧
      ∀ r ∈ o.fN_j.getD p [], r.length = m := by
  obtain ⟨_, _, _, hkj, _, hNj, _⟩ := hw
  exact hNj _ (getD_mem o.fN_j p [] (by rw [hkj]; exact hp))

theorem fN_nj_facts (o : QObj) (m : ℕ) (hw : o.WF m) (p : ℕ) (hp : p < o.k) :
    (o.fN_nj.getD p []).length = o.fM_1.length ∧
      ∀ r ∈ o.fN_nj.getD p [], r.length = m := by
  obtain ⟨_, _, _, _, hknj, _, hNnj⟩ := hw
  exact hNnj _ (getD_mem o.fN_nj p [] (by rw [hknj]; exact hp))

theorem length_U_j (o : QObj) (m : ℕ) (hw : o.WF m) : (o.U_j).length = o.k := by
  obtain ⟨_, _, _, hkj, hknj, _, _⟩ := hw
  simp [QObj.U_j, hkj, hknj]

theorem length_U_nj (o : QObj) (m : ℕ) (hw : o.WF m) : (o.U_nj).length = o.k := by
  obtain ⟨_, _, _, hkj, hknj, _, _⟩ := hw
  simp [QObj.U_nj, hkj, hknj]

theorem U_j_row (o : QObj) (m : ℕ) (hw : o.WF m) (p : ℕ) (hp : p < o.k) :
    (o.U_j).getD p [] =
      (vadd
        ((npsumRows (tmul o.fM_1 (o.fN_j.getD p []))).map (· / ((o.n : ℚ) - 1)))
        ((npsumRows (tmul o.fM_2 (o.fN_nj.getD p []))).map (· / ((o.n : ℚ) - 1)))).map
        (· / 2) := by
  obtain ⟨h21, hm1, hm2, hkj, hknj, hNj, hNnj⟩ := hw
  have hA : ((o.fN_j.map (fun t => npsumRows (tmul o.fM_1 t))).map
      (fun v => v.map (· / ((o.n : ℚ) - 1)))).length = o.k := by
    simp [hkj]
  have hB : ((o.fN_nj.map (fun t => npsumRows (tmul o.fM_2 t))).map
      (fun v => v.map (· / ((o.n : ℚ) - 1)))).length = o.k := by
    simp [hknj]
  rw [QObj.U_j]
  rw [getD_map' (fun v : List ℚ => v.map (· / 2)) [] [] _ p
    (by rw [List.length_zipWith, hA, hB]; simpa using hp)]
  rw [getD_zipWith' vadd [] [] [] _ _ p (by rw [hA]; exact hp) (by rw [hB]; exact hp)]
  rw [getD_map' (fun v : List ℚ => v.map (· / ((o.n : ℚ) - 1))) [] [] _ p (by simpa [hkj] using hp),
    getD_map' (fun t => npsumRows (tmul o.fM_1 t)) [] [] _ p (by rw [hkj]; exact hp)]
  rw [getD_map' (fun v : List ℚ => v.map (· / ((o.n : ℚ) - 1))) [] [] _ p (by simpa [hknj] using hp),
    getD_map' (fun t => npsumRows (tmul o.fM_2 t)) [] [] _ p (by rw [hknj]; exact hp)]

theorem U_nj_row (o : QObj) (m : ℕ) (hw : o.WF m) (p : ℕ) (hp : p < o.k) :
    (o.U_nj).getD p [] =
      (vadd
        ((npsumRows (tmul o.fM_1 (o.fN_nj.getD p []))).map (· / ((o.n : ℚ) - 1)))
        ((npsumRows (tmul o.fM_2 (o.fN_j.getD p []))).map (· / ((o.n : ℚ) - 1)))).map
        (· / 2) := by
  obtain ⟨h21, hm1, hm2, hkj, hknj, hNj, hNnj⟩ := hw
  have hA : ((o.fN_nj.map (fun t => npsumRows (tmul o.fM_1 t))).map
      (fun v => v.map (· / ((o.n : ℚ) - 1)))).length = o.k := by
    simp [hknj]
  have hB : ((o.fN_j.map (fun t => npsumRows (tmul o.fM_2 t))).map
      (fun v => v.map (· / ((o.n : ℚ) - 1)))).length = o.k := by
    simp [hkj]
  rw [QObj.U_nj]
  rw [getD_map' (fun v : List ℚ => v.map (· / 2)) [] [] _ p
    (by rw [List.length_zipWith, hA, hB]; simpa using hp)]
  rw [getD_zipWith' vadd [] [] [] _ _ p (by rw [hA]; exact hp) (by rw [hB]; exact hp)]
  rw [getD_map' (fun v : List ℚ => v.map (· / ((o.n : ℚ) - 1))) [] [] _ p (by simpa [hknj] using hp),
    getD_map' (fun t => npsumRows (tmul o.fM_1 t)) [] [] _ p (by rw [hknj]; exact hp)]
  rw [getD_map' (fun v : List ℚ => v.map (· / ((o.n : ℚ) - 1))) [] [] _ p (by simpa [hkj] using hp),
    getD_map' (fun t => npsumRows (tmul o.fM_2 t)) [] [] _ p (by rw [hkj]; exact hp)]

theorem lt_length_E_2 (o : QObj) (m : ℕ) (hw : o.WF m) (h1 : 1 ≤ o.fM_1.length)
    (c : ℕ) (hc : c < m) : c < (o.E_2).length := by
  obtain ⟨h21, hm1, hm2, _, _, _, _⟩ := hw
  rw [QObj.E_2, List.length_map]
  exact lt_length_npsumRows_tmul o.fM_1 o.fM_2 c h1 (by omega)
    (fun r hr => by rw [hm1 r hr]; exact hc)
    (fun r hr => by rw [hm2 r hr]; exact hc)

theorem lt_length_var_y (o : QObj) (m : ℕ) (hw : o.WF m) (h1 : 1 ≤ o.fM_1.length)
    (c : ℕ) (hc : c < m) : c < (o.var_y).length := by
  obtain ⟨h21, hm1, hm2, _, _, _, _⟩ := hw
  set t := o.fM_1 ++ o.fM_2 with ht_def
  have hbt : ∀ r ∈ t, c < r.length := by
    intro r hr
    rcases List.mem_append.1 hr with h | h
    · rw [hm1 r h]; exact hc
    · rw [hm2 r h]; exact hc
  have htne : t ≠ [] := by
    intro hnil
    rw [ht_def] at hnil
    rw [(List.append_eq_nil.1 hnil).1] at h1
    simp at h1
  have hmean : c < ((npsumRows t).map (· / (t.length : ℚ))).length := by
    rw [List.length_map]
    exact lt_length_npsumRows t c htne hbt
  set mean := (npsumRows t).map (· / (t.length : ℚ)) with hmean_def
  have hbsq : ∀ r ∈ t.map (fun r => (vsub r mean).map (fun x => x * x)),
      c < r.length := by
    intro r hr
    rcases List.mem_map.1 hr with ⟨s, hs, rfl⟩
    simp [vsub]
    exact ⟨hbt s hs, hmean⟩
  have htsq : t.map (fun r => (vsub r mean).map (fun x => x * x)) ≠ [] := by
    intro hnil
    exact htne (List.map_eq_nil_iff.1 hnil)
  rw [QObj.var_y, npvar0_eq, ← hmean_def, List.length_map]
  exact lt_length_npsumRows _ c htsq hbsq

theorem vdiv_vsub_entry (u E V : List ℚ) (c : ℕ) (hu : c < u.length)
    (hE : c < E.length) (hV : c < V.length) :
    (vdiv (vsub u E) V).getD c 0 = (u.getD c 0 - E.getD c 0) / V.getD c 0 := by
  simp only [vdiv, vsub]
  rw [getD_zipWith' (· / ·) 0 0 0 _ V c (by rw [List.length_zipWith]; omega) hV,
    getD_zipWith' (· - ·) 0 0 0 u E c hu hE]

theorem U_row_entry (s1 s2 : List ℚ) (d : ℚ) (c : ℕ)
    (h1 : c < s1.length) (h2 : c < s2.length) :
    ((vadd (s1.map (· / d)) (s2.map (· / d))).map (· / 2)).getD c 0
      = (s1.getD c 0 / d + s2.getD c 0 / d) / 2 := by
  rw [getD_map' (fun x : ℚ => x / 2) 0 0 _ c
    (by simp only [vadd, List.length_zipWith, List.length_map]; omega)]
  simp only [vadd]
  rw [getD_zipWith' (· + ·) 0 0 0 _ _ c (by simpa using h1) (by simpa using h2),
    getD_map' (fun x : ℚ => x / d) 0 0 _ c h1,
    getD_map' (fun x : ℚ => x / d) 0 0 _ c h2]

/-! ### Claim theorems -/

/-- Claim C2 (amended): for every reconciled evaluation set, per output
component, the squared-mean estimator equals the sum over the remaining
rows of `fM_1[i]·fM_2[i]` divided by the constructor-supplied design
count `n` — not by the post-prune count `n'` as the claim stated. -/
theorem claim_C2 (o : QObj) (m : ℕ) (hw : o.WF m) (h1 : 1 ≤ o.fM_1.length)
    (c : ℕ) (hc : c < m) :
    (o.E_2).getD c 0 = dotQ (col o.fM_1 c) (col o.fM_2 c) / (o.n : ℚ) :=
  E_2_entry o m hw h1 c hc

/-- Claim C2 counterexample: loading `exX` (with one NaN row, so
`n' = 2 < n = 3`) yields a reconciled set on which `E_2` differs from the
mean over the `n' = 2` remaining rows of `fM_1[i]·fM_2[i]` (the code
divides the sum by `n = 3`, giving `13/3`, not `13/2`). -/
theorem claim_C2_counterexample :
    objLoad 1 3 exX = some exO ∧
    exO.toQ = exQ ∧
    exQ.fM_1.length = 2 ∧
    (exQ.E_2).getD 0 0 ≠ dotQ (col exQ.fM_1 0) (col exQ.fM_2 0) / (exQ.fM_1.length : ℚ) := by
  refine ⟨by decide, rfl, by decide, ?_⟩
  norm_num [exQ, exO, ObjState.toQ, PVal.toRat, QObj.E_2, npsumRows, tmul, vmul,
    vadd, col, dotQ]

/-- Claim C2 witness: the amended statement evaluated on the concrete
reconciled set `exQ` (`E_2 = 13/3` with `n = 3`). -/
theorem claim_C2_witness :
    QObj.WF exQ 1 ∧ 1 ≤ exQ.fM_1.length ∧ 0 < 1 ∧
    (exQ.E_2).getD 0 0 = dotQ (col exQ.fM_1 0) (col exQ.fM_2 0) / (exQ.n : ℚ) :=
  ⟨by decide, by decide, by decide, claim_C2 exQ 1 (by decide) (by decide) 0 (by decide)⟩

/-- Claim C3 (amended): for every reconciled evaluation set, per output
component, `var_y` is the Bessel-style sample variance of the pooled
concatenation of `fM_1` and `fM_2`, with divisor `2n' - 1` (the pooled
sample has `2n'` elements) — not `n' - 1` as the claim stated. -/
theorem claim_C3 (o : QObj) (m : ℕ) (hw : o.WF m) (h1 : 1 ≤ o.fM_1.length)
    (c : ℕ) (hc : c < m) :
    (o.var_y).getD c 0 =
      sampleVar (col o.fM_1 c ++ col o.fM_2 c) (2 * (o.fM_1.length : ℚ) - 1) := by
  rw [var_y_entry o m hw h1 c hc]
  have hd : ((col o.fM_1 c ++ col o.fM_2 c).length : ℚ) - 1
      = 2 * (o.fM_1.length : ℚ) - 1 := by
    rw [List.length_append, col_length, col_length, hw.1]
    push_cast
    ring
  rw [hd]

/-- Claim C3 counterexample: on the concrete reconciled set `exQ`
(`n' = 2`, pooled values `1, 2, 3, 5`), the code's `var_y` is `35/12`
(divisor `2n' - 1 = 3`), not the claimed divisor-`n' - 1` value `35/4`. -/
theorem claim_C3_counterexample :
    objLoad 1 3 exX = some exO ∧
    exO.toQ = exQ ∧
    exQ.fM_1.length = 2 ∧
    (exQ.var_y).getD 0 0 ≠
      sampleVar (col exQ.fM_1 0 ++ col exQ.fM_2 0) ((exQ.fM_1.length : ℚ) - 1) := by
  refine ⟨by decide, rfl, by decide, ?_⟩
  norm_num [exQ, exO, ObjState.toQ, PVal.toRat, QObj.var_y, npvar0, npsumRows,
    vadd, vsub, col, sampleVar]

/-- Claim C3 witness: the amended statement evaluated on the concrete
reconciled set `exQ` (`var_y = 35/12` with divisor `2·2 - 1 = 3`). -/
theorem claim_C3_witness :
    QObj.WF exQ 1 ∧ 1 ≤ exQ.fM_1.length ∧ 0 < 1 ∧
    (exQ.var_y).getD 0 0 =
      sampleVar (col exQ.fM_1 0 ++ col exQ.fM_2 0) (2 * (exQ.fM_1.length : ℚ) - 1) :=
  ⟨by decide, by decide, by decide, claim_C3 exQ 1 (by decide) (by decide) 0 (by decide)⟩

/-- Claim C1 (amended): for every reconciled evaluation set, per output
component `c` and parameter `p`, the first-order index satisfies
`sens[p] = (U_j[p] - E_2)/var_y` and the total-order index satisfies
`sens_t[p] = 1 - (U_nj[p] - E_2)/var_y`, with
`U_j[p] = (Σ_i fM_1[i]·fN_j[p][i] + Σ_i fM_2[i]·fN_nj[p][i]) / (2(n-1))`
and `U_nj[p]` the same with `fN_j`/`fN_nj` swapped, where `n` is the
constructor-supplied design count — not the post-prune count `n'` as the
claim stated. -/
theorem claim_C1 (o : QObj) (m : ℕ) (hw : o.WF m) (h1 : 1 ≤ o.fM_1.length)
    (p c : ℕ) (hp : p < o.k) (hc : c < m) (hv : 0 < (o.var_y).getD c 0) :
    ((o.sens).getD p []).getD c 0 =
      ((dotQ (col o.fM_1 c) (col (o.fN_j.getD p []) c)
          + dotQ (col o.fM_2 c) (col (o.fN_nj.getD p []) c)) / (2 * ((o.n : ℚ) - 1))
        - (o.E_2).getD c 0) / (o.var_y).getD c 0
    ∧ ((o.sens_t).getD p []).getD c 0 =
      1 - ((dotQ (col o.fM_1 c) (col (o.fN_nj.getD p []) c)
          + dotQ (col o.fM_2 c) (col (o.fN_j.getD p []) c)) / (2 * ((o.n : ℚ) - 1))
        - (o.E_2).getD c 0) / (o.var_y).getD c 0 := by
  have hw' := hw
  obtain ⟨h21, hm1, hm2, hkj, hknj, hNj, hNnj⟩ := hw'
  have hb1 : ∀ r ∈ o.fM_1, c < r.length := fun r hr => by rw [hm1 r hr]; exact hc
  have hb2 : ∀ r ∈ o.fM_2, c < r.length := fun r hr => by rw [hm2 r hr]; exact hc
  have h2len : 1 ≤ o.fM_2.length := by omega
  obtain ⟨hNjlen, hNjm⟩ := fN_j_facts o m hw p hp
  obtain ⟨hNnjlen, hNnjm⟩ := fN_nj_facts o m hw p hp
  have hbNj : ∀ r ∈ o.fN_j.getD p [], c < r.length :=
    fun r hr => by rw [hNjm r hr]; exact hc
  have hbNnj : ∀ r ∈ o.fN_nj.getD p [], c < r.length :=
    fun r hr => by rw [hNnjm r hr]; exact hc
  have hs1 : c < (npsumRows (tmul o.fM_1 (o.fN_j.getD p []))).length :=
    lt_length_npsumRows_tmul _ _ c h1 (by omega) hb1 hbNj
  have hs2 : c < (npsumRows (tmul o.fM_2 (o.fN_nj.getD p []))).length :=
    lt_length_npsumRows_tmul _ _ c h2len (by omega) hb2 hbNnj
  have hs1' : c < (npsumRows (tmul o.fM_1 (o.fN_nj.getD p []))).length :=
    lt_length_npsumRows_tmul _ _ c h1 (by omega) hb1 hbNnj
  have hs2' : c < (npsumRows (tmul o.fM_2 (o.fN_j.getD p []))).length :=
    lt_length_npsumRows_tmul _ _ c h2len (by omega) hb2 hbNj
  have hE : c < (o.E_2).length := lt_length_E_2 o m hw h1 c hc
  have hV : c < (o.var_y).length := lt_length_var_y o m hw h1 c hc
  constructor
  · rw [QObj.sens,
      getD_map' (fun u => vdiv (vsub u o.E_2) o.var_y) [] [] _ p
        (by rw [length_U_j o m hw]; exact hp),
      U_j_row o m hw p hp,
      vdiv_vsub_entry _ _ _ c
        (by simp only [vadd, List.length_map, List.length_zipWith]; omega) hE hV,
      U_row_entry _ _ _ c hs1 hs2,
      getD_npsumRows_tmul o.fM_1 _ c (by omega) hb1 hbNj,
      getD_npsumRows_tmul o.fM_2 _ c (by omega) hb2 hbNnj,
      div_add_div_same, div_div, mul_comm ((o.n : ℚ) - 1) 2]
  · rw [QObj.sens_t,
      getD_map' (fun u => (vdiv (vsub u o.E_2) o.var_y).map (fun x => 1 - x)) [] [] _ p
        (by rw [length_U_nj o m hw]; exact hp),
      U_nj_row o m hw p hp,
      getD_map' (fun x : ℚ => 1 - x) 0 0 _ c
        (by simp only [vdiv, vsub, vadd, List.length_map, List.length_zipWith]; omega),
      vdiv_vsub_entry _ _ _ c
        (by simp only [vadd, List.length_map, List.length_zipWith]; omega) hE hV,
      U_row_entry _ _ _ c hs1' hs2',
      getD_npsumRows_tmul o.fM_1 _ c (by omega) hb1 hbNnj,
      getD_npsumRows_tmul o.fM_2 _ c (by omega) hb2 hbNj,
      div_add_div_same, div_div, mul_comm ((o.n : ℚ) - 1) 2]

/-- Claim C1 counterexample: loading `exX` (one NaN row pruned, so
`n' = 2 < n = 3`) yields a reconciled set with `var_y > 0` on which the
first-order index computed by the code (`1`) differs from the claimed
formula with divisor `2(n' - 1)` (`122/35`). -/
theorem claim_C1_counterexample :
    objLoad 1 3 exX = some exO ∧
    exO.toQ = exQ ∧
    exQ.fM_1.length = 2 ∧
    0 < (exQ.var_y).getD 0 0 ∧
    ((exQ.sens).getD 0 []).getD 0 0 ≠
      ((dotQ (col exQ.fM_1 0) (col (exQ.fN_j.getD 0 []) 0)
          + dotQ (col exQ.fM_2 0) (col (exQ.fN_nj.getD 0 []) 0))
        / (2 * ((exQ.fM_1.length : ℚ) - 1))
        - (exQ.E_2).getD 0 0) / (exQ.var_y).getD 0 0 := by
  refine ⟨by decide, rfl, by decide, ?_, ?_⟩
  · norm_num [exQ, exO, ObjState.toQ, PVal.toRat, QObj.var_y, npvar0, npsumRows,
      vadd, vsub]
  · norm_num [exQ, exO, ObjState.toQ, PVal.toRat, QObj.sens, QObj.U_j, QObj.E_2,
      QObj.var_y, npvar0, npsumRows, tmul, vmul, vadd, vsub, vdiv, col, dotQ]

/-- Claim C1 witness: the amended statement evaluated on the concrete
reconciled set `exQ` at parameter 0, component 0. -/
theorem claim_C1_witness :
    QObj.WF exQ 1 ∧ 1 ≤ exQ.fM_1.length ∧ 0 < exQ.k ∧ 0 < 1 ∧
    0 < (exQ.var_y).getD 0 0 ∧
    (((exQ.sens).getD 0 []).getD 0 0 =
      ((dotQ (col exQ.fM_1 0) (col (exQ.fN_j.getD 0 []) 0)
          + dotQ (col exQ.fM_2 0) (col (exQ.fN_nj.getD 0 []) 0))
        / (2 * ((exQ.n : ℚ) - 1))
        - (exQ.E_2).getD 0 0) / (exQ.var_y).getD 0 0
    ∧ ((exQ.sens_t).getD 0 []).getD 0 0 =
      1 - ((dotQ (col exQ.fM_1 0) (col (exQ.fN_nj.getD 0 []) 0)
          + dotQ (col exQ.fM_2 0) (col (exQ.fN_j.getD 0 []) 0))
        / (2 * ((exQ.n : ℚ) - 1))
        - (exQ.E_2).getD 0 0) / (exQ.var_y).getD 0 0) :=
  ⟨by decide, by decide, by decide, by decide,
    by norm_num [exQ, exO, ObjState.toQ, PVal.toRat, QObj.var_y, npvar0, npsumRows,
      vadd, vsub],
    claim_C1 exQ 1 (by decide) (by decide) 0 0 (by decide) (by decide)
      (by norm_num [exQ, exO, ObjState.toQ, PVal.toRat, QObj.var_y, npvar0, npsumRows,
        vadd, vsub])⟩

theorem dotQ_comm (u v : List ℚ) : dotQ u v = dotQ v u := by
  rw [dotQ, dotQ, List.zipWith_comm_of_comm (· * ·) mul_comm]

/-- Claim C9: per output component `c`, the second-order raw estimator is
symmetric in its parameter pair, `sens_2[p][q] = sens_2[q][p]`, and
likewise for the same-family variant `sens_2n`. -/
theorem claim_C9 (o : QObj) (p q c : ℕ) :
    o.sens_2 p c q c = o.sens_2 q c p c ∧ o.sens_2n p c q c = o.sens_2n q c p c := by
  constructor
  · rw [QObj.sens_2, QObj.sens_2, QObj.tdot, QObj.tdot, QObj.tdot, QObj.tdot,
      dotQ_comm (col (o.fN_nj.getD q []) c) (col (o.fN_j.getD p []) c),
      dotQ_comm (col (o.fN_j.getD q []) c) (col (o.fN_nj.getD p []) c)]
    ring
  · rw [QObj.sens_2n, QObj.sens_2n, QObj.tdot, QObj.tdot, QObj.tdot, QObj.tdot,
      dotQ_comm (col (o.fN_nj.getD q []) c) (col (o.fN_nj.getD p []) c),
      dotQ_comm (col (o.fN_j.getD q []) c) (col (o.fN_j.getD p []) c)]

/-- Claim C10: the decorrelation shuffle is applied only on the
raw-array construction path, and there only to `M_2` (after scaling),
while `M_1` keeps its row order; on the loaded-`(2n, k)` path both
halves are taken in file order with no shuffle. -/
theorem claim_C10 (n : ℕ) (scaling shuffle : List (List ℚ) → List (List ℚ))
    (x : List (List ℚ)) :
    buildM false n scaling shuffle x
      = (scaling (x.take n), scaling ((x.drop n).take n))
    ∧ buildM true n scaling shuffle x
      = (scaling (x.take n), shuffle (scaling ((x.drop n).take n))) :=
  ⟨rfl, rfl⟩

theorem getD_set_self (l : List α) (i : ℕ) (a d : α) (h : i < l.length) :
    (l.set i a).getD i d = a := by
  rw [List.getD_eq_getElem?_getD, List.getElem?_set_self h]
  rfl

theorem getD_set_ne (l : List α) (i j : ℕ) (a d : α) (h : i ≠ j) :
    (l.set i a).getD j d = l.getD j d := by
  rw [List.getD_eq_getElem?_getD, List.getElem?_set_ne h, ← List.getD_eq_getElem?_getD]

theorem getD_replicate : ∀ (k : ℕ) (a : α) (j : ℕ) (d : α), j < k →
    (List.replicate k a).getD j d = a
  | 0, _, _, _, h => absurd h (by simp)
  | _ + 1, _, 0, _, _ => rfl
  | k + 1, a, j + 1, d, h => by
    rw [List.replicate_succ, List.getD_cons_succ]
    exact getD_replicate k a j d (Nat.lt_of_succ_lt_succ h)

theorem foldl_set_getD (T : ℕ → α → α) (d : α) :
    ∀ (ps : List ℕ) (N : List α) (j : ℕ), ps.Nodup → j < N.length →
      (ps.foldl (fun N i => N.set i (T i (N.getD i d))) N).getD j d
        = if j ∈ ps then T j (N.getD j d) else N.getD j d
  | [], N, j, _, _ => by simp
  | p :: ps, N, j, hnd, hj => by
    have hnd' : ps.Nodup := (List.nodup_cons.1 hnd).2
    have hpns : p ∉ ps := (List.nodup_cons.1 hnd).1
    have hlen : (N.set p (T p (N.getD p d))).length = N.length := by simp
    rw [List.foldl_cons,
      foldl_set_getD T d ps _ j hnd' (by rw [hlen]; exact hj)]
    by_cases hjp : j = p
    · subst hjp
      have hmem : j ∈ j :: ps := by simp
      rw [if_neg (fun hin => hpns hin), if_pos hmem,
        getD_set_self N j _ d hj]
    · have hset : (N.set p (T p (N.getD p d))).getD j d = N.getD j d :=
        getD_set_ne N p j _ d (fun hpj => hjp hpj.symm)
      by_cases hjps : j ∈ ps
      · rw [if_pos hjps, if_pos (by simp [hjps]), hset]
      · rw [if_neg hjps, if_neg (by simp [hjp, hjps]), hset]

theorem generate_N_j_getD (k : ℕ) (M_1 M_2 : List (List ℚ)) (j : ℕ) (hj : j < k) :
    (generate_N_j k M_1 M_2).getD j []
      = List.zipWith (fun r2 r1 => r2.set j (r1.getD j 0)) M_2 M_1 := by
  rw [generate_N_j,
    foldl_set_getD (setColStep M_1) [] (List.range k) (List.replicate k M_2) j
      (List.nodup_range k) (by simpa using hj),
    if_pos (List.mem_range.2 hj), getD_replicate k M_2 j [] hj, setColStep]

/-- Claim C5: for every `j < k`, the derived resample matrices satisfy:
`N_j[j]` is `M_2` with column `j` overwritten by `M_1`'s column `j`, and
`N_nj[j]` is `M_1` with column `j` overwritten by `M_2`'s column `j`;
in particular each agrees with its base matrix on every column other
than `j`.  (`numpy.array([M_2]*k)` copies its input, so in the model the
derivation is a pure function of `M_1` and `M_2`, which are left
unmodified.) -/
theorem claim_C5 (k n : ℕ) (M_1 M_2 : List (List ℚ))
    (hl1 : M_1.length = n) (hl2 : M_2.length = n)
    (hrow1 : ∀ r ∈ M_1, r.length = k) (hrow2 : ∀ r ∈ M_2, r.length = k)
    (j r c : ℕ) (hj : j < k) (hr : r < n) (hc : c < k) :
    (((generate_N_j k M_1 M_2).getD j []).getD r []).getD c 0
      = (if c = j then (M_1.getD r []).getD c 0 else (M_2.getD r []).getD c 0)
    ∧ (((generate_N_j k M_2 M_1).getD j []).getD r []).getD c 0
      = (if c = j then (M_2.getD r []).getD c 0 else (M_1.getD r []).getD c 0) := by
  constructor
  · rw [generate_N_j_getD k M_1 M_2 j hj,
      getD_zipWith' (fun r2 r1 => r2.set j (r1.getD j 0)) [] [] [] M_2 M_1 r
        (by rw [hl2]; exact hr) (by rw [hl1]; exact hr)]
    by_cases hcj : c = j
    · subst hcj
      rw [if_pos rfl,
        getD_set_self _ c _ 0 (by rw [hrow2 _ (getD_mem M_2 r [] (by rw [hl2]; exact hr))]; exact hc)]
    · rw [if_neg hcj, getD_set_ne _ j c _ 0 (fun hjc => hcj hjc.symm)]
  · rw [generate_N_j_getD k M_2 M_1 j hj,
      getD_zipWith' (fun r2 r1 => r2.set j (r1.getD j 0)) [] [] [] M_1 M_2 r
        (by rw [hl1]; exact hr) (by rw [hl2]; exact hr)]
    by_cases hcj : c = j
    · subst hcj
      rw [if_pos rfl,
        getD_set_self _ c _ 0 (by rw [hrow1 _ (getD_mem M_1 r [] (by rw [hl1]; exact hr))]; exact hc)]
    · rw [if_neg hcj, getD_set_ne _ j c _ 0 (fun hjc => hcj hjc.symm)]

/-- Claim C5 witness: the column-swap property evaluated on the concrete
`2 × 2` matrices `exP`, `exR` at `j = 0`, row `0`, columns `0` and `1`
(the swapped column and an untouched column). -/
theorem claim_C5_witness :
    exP.length = 2 ∧ exR.length = 2 ∧
    ((((generate_N_j 2 exP exR).getD 0 []).getD 0 []).getD 0 0
        = (if 0 = 0 then (exP.getD 0 []).getD 0 0 else (exR.getD 0 []).getD 0 0)
      ∧ (((generate_N_j 2 exR exP).getD 0 []).getD 0 []).getD 0 0
        = (if 0 = 0 then (exR.getD 0 []).getD 0 0 else (exP.getD 0 []).getD 0 0)) ∧
    ((((generate_N_j 2 exP exR).getD 0 []).getD 0 []).getD 1 0
        = (if 1 = 0 then (exP.getD 0 []).getD 1 0 else (exR.getD 0 []).getD 1 0)
      ∧ (((generate_N_j 2 exR exP).getD 0 []).getD 0 []).getD 1 0
        = (if 1 = 0 then (exR.getD 0 []).getD 1 0 else (exP.getD 0 []).getD 1 0)) :=
  ⟨by decide, by decide,
    claim_C5 2 2 exP exR (by decide) (by decide) (by decide) (by decide)
      0 0 0 (by decide) (by decide) (by decide),
    claim_C5 2 2 exP exR (by decide) (by decide) (by decide) (by decide)
      0 0 1 (by decide) (by decide) (by decide)⟩

/-- Claim C7 (code evaluated at the failing input): the direct
`Sample(k, n, scaling)` path with `k = 1`, `n = 1`, default `discard = 0`
requests and discards exactly `20` points, so `M_1` is the point at
stream position `20`; but the `Varsens(objective, scaling_func, k, n)`
path at its default `verbose=True` passes `verbose` positionally into
`discard` (line 555), so it discards `21 ≠ 20·1 + 0` points and `M_1`
becomes the point at position `21`. -/
theorem claim_C7 :
    (sampleFresh 1 1 0 id exSeq).2 = 20 * 1 + 0
    ∧ (sampleFresh 1 1 0 id exSeq).1.1 = [[(20 : ℚ)]]
    ∧ (varsensFreshSample 1 1 true id exSeq).2 = 21
    ∧ (varsensFreshSample 1 1 true id exSeq).2 ≠ 20 * 1 + 0
    ∧ (varsensFreshSample 1 1 true id exSeq).1.1 = [[(21 : ℚ)]] := by
  refine ⟨by decide, ?_, by decide, by decide, ?_⟩
  · norm_num [sampleFresh, haltonGet, exSeq, List.range_succ]
  · norm_num [varsensFreshSample, sampleFresh, haltonGet, exSeq, List.range_succ]

/-- Claim C8 (amended): a sample array whose shape matches neither
`(2n, k)` nor `(2n(1+k), k)` is rejected on both construction paths; the
load-path message interpolates the actual shape and both accepted
shapes, but the raw-path message is a fixed string that reports no
dimensions. -/
theorem claim_C8 (k n r c : ℕ)
    (hb1 : ¬(r = 2 * n ∧ c = k)) (hb2 : ¬(r = 2 * n * (1 + k) ∧ c = k)) :
    sampleRawCheck k n r c = .error rawShapeMsg
    ∧ sampleLoadCheck k n r c = .error (loadShapeMsg k n r c)
    ∧ Reports (loadShapeMsg k n r c) (shapeStr r c)
    ∧ Reports (loadShapeMsg k n r c) (shapeFmt (2 * n) k)
    ∧ Reports (loadShapeMsg k n r c) (shapeFmt (2 * n * (1 + k)) k)
    ∧ rawShapeMsg.data.all (fun ch => !ch.isDigit) = true := by
  refine ⟨?_, ?_, ?_, ?_, ?_, by decide⟩
  · rw [sampleRawCheck, if_neg hb1]
  · rw [sampleLoadCheck, if_neg hb1, if_neg hb2]
  · rw [Reports]
    refine ⟨("Loaded sample has shape ").data,
      (". Must have shape " ++ shapeFmt (2 * n) k ++ " or "
        ++ shapeFmt (2 * n * (1 + k)) k ++ ".").data, ?_⟩
    simp [loadShapeMsg, String.data_append, List.append_assoc]
  · rw [Reports]
    refine ⟨("Loaded sample has shape " ++ shapeStr r c ++ ". Must have shape ").data,
      (" or " ++ shapeFmt (2 * n * (1 + k)) k ++ ".").data, ?_⟩
    simp [loadShapeMsg, String.data_append, List.append_assoc]
  · rw [Reports]
    refine ⟨("Loaded sample has shape " ++ shapeStr r c ++ ". Must have shape "
        ++ shapeFmt (2 * n) k ++ " or ").data, (".").data, ?_⟩
    simp [loadShapeMsg, String.data_append, List.append_assoc]

/-- Claim C8 counterexample: with `n = 2`, `k = 2`, a raw array of shape
`(3, 2)` (matching neither `(4, 2)` nor `(12, 2)`) raises the fixed
raw-path message, which contains no digit at all and hence reports
neither the expected shapes nor the actual shape. -/
theorem claim_C8_counterexample :
    sampleRawCheck 2 2 3 2 = .error rawShapeMsg
    ∧ ¬ Reports rawShapeMsg (shapeStr 3 2)
    ∧ ¬ Reports rawShapeMsg (shapeFmt 3 2)
    ∧ ¬ Reports rawShapeMsg (shapeStr 4 2)
    ∧ ¬ Reports rawShapeMsg (shapeFmt 4 2)
    ∧ rawShapeMsg.data.all (fun ch => !ch.isDigit) = true :=
  ⟨rfl, by decide, by decide, by decide, by decide, by decide⟩

/-- Claim C8 witness: the amended statement evaluated at the concrete
bad shape `(3, 2)` with `n = 2`, `k = 2`. -/
theorem claim_C8_witness :
    (¬((3 : ℕ) = 2 * 2 ∧ (2 : ℕ) = 2)) ∧ (¬((3 : ℕ) = 2 * 2 * (1 + 2) ∧ (2 : ℕ) = 2)) ∧
    (sampleRawCheck 2 2 3 2 = .error rawShapeMsg
    ∧ sampleLoadCheck 2 2 3 2 = .error (loadShapeMsg 2 2 3 2)
    ∧ Reports (loadShapeMsg 2 2 3 2) (shapeStr 3 2)
    ∧ Reports (loadShapeMsg 2 2 3 2) (shapeFmt (2 * 2) 2)
    ∧ Reports (loadShapeMsg 2 2 3 2) (shapeFmt (2 * 2 * (1 + 2)) 2)
    ∧ rawShapeMsg.data.all (fun ch => !ch.isDigit) = true) :=
  ⟨by decide, by decide, claim_C8 2 2 3 2 (by decide) (by decide)⟩

theorem length_flatMap_const (l : List α) (g : α → List β) (n : ℕ)
    (h : ∀ a ∈ l, (g a).length = n) : (l.flatMap g).length = l.length * n := by
  induction l with
  | nil => simp
  | cons a l ih =>
    rw [List.flatMap_cons, List.length_append, h a (by simp),
      ih (fun b hb => h b (by simp [hb])), List.length_cons]
    ring

/-- Claim C6: on a fresh evaluation with `n ≥ 1`, the objective is
invoked exactly `2n(1+k)` times, the call sequence covers all `n` rows
of `M_1` in order (the probe call on `M_1[0]` being the first, stored
rather than re-evaluated), then all rows of `M_2`, then for each
parameter `p` all rows of `N_j[p]`, then for each parameter all rows of
`N_nj[p]`; afterwards every slot of `fM_1`, `fM_2`, `fN_j`, `fN_nj`
holds the objective applied to the correspondingly indexed sample
row. -/
theorem claim_C6 (f : List ℚ → List ℚ) (k n : ℕ) (M_1 M_2 : List (List ℚ))
    (N_j N_nj : List (List (List ℚ))) (hn : 1 ≤ n) :
    (evalTrace k n M_1 M_2 N_j N_nj).length = 2 * n * (1 + k)
    ∧ evalTrace k n M_1 M_2 N_j N_nj
      = (List.range n).map (fun i => M_1.getD i [])
        ++ (List.range n).map (fun i => M_2.getD i [])
        ++ (List.range k).flatMap
            (fun p => (List.range n).map (fun i => (N_j.getD p []).getD i []))
        ++ (List.range k).flatMap
            (fun p => (List.range n).map (fun i => (N_nj.getD p []).getD i []))
    ∧ (objEval f k n M_1 M_2 N_j N_nj).fM_1
      = (List.range n).map (fun i => f (M_1.getD i []))
    ∧ (objEval f k n M_1 M_2 N_j N_nj).fM_2
      = (List.range n).map (fun i => f (M_2.getD i []))
    ∧ (objEval f k n M_1 M_2 N_j N_nj).fN_j
      = (List.range k).map
          (fun p => (List.range n).map (fun i => f ((N_j.getD p []).getD i [])))
    ∧ (objEval f k n M_1 M_2 N_j N_nj).fN_nj
      = (List.range k).map
          (fun p => (List.range n).map (fun i => f ((N_nj.getD p []).getD i []))) := by
  obtain ⟨nn, rfl⟩ : ∃ nn, n = nn + 1 := ⟨n - 1, by omega⟩
  have hhead : ∀ (g : ℕ → List ℚ),
      [g 0] ++ (List.range ((nn + 1) - 1)).map (fun i => g (i + 1))
        = (List.range (nn + 1)).map g := by
    intro g
    simp only [show (nn + 1) - 1 = nn from rfl, List.range_succ_eq_map,
      List.map_cons, List.map_map, List.singleton_append]
    rfl
  refine ⟨?_, ?_, ?_, rfl, rfl, rfl⟩
  · rw [evalTrace]
    simp only [List.length_append, List.length_map, List.length_range,
      List.length_singleton]
    rw [length_flatMap_const _ _ (nn + 1) (fun a _ => by simp),
      length_flatMap_const _ _ (nn + 1) (fun a _ => by simp),
      List.length_range, show (nn + 1) - 1 = nn from rfl]
    ring
  · rw [evalTrace, hhead (fun i => M_1.getD i [])]
  · show f (M_1.getD 0 [])
        :: (List.range ((nn + 1) - 1)).map (fun i => f (M_1.getD (i + 1) []))
      = (List.range (nn + 1)).map (fun i => f (M_1.getD i []))
    rw [← List.singleton_append, hhead (fun i => f (M_1.getD i []))]

/-- Claim C6 witness: the evaluation-order statement evaluated on the
concrete sample (`k = 1`, `n = 2`) and objective `exF`. -/
theorem claim_C6_witness :
    1 ≤ 2
    ∧ ((evalTrace 1 2 exM_1 exM_2 exN_j exN_nj).length = 2 * 2 * (1 + 1)
    ∧ evalTrace 1 2 exM_1 exM_2 exN_j exN_nj
      = (List.range 2).map (fun i => exM_1.getD i [])
        ++ (List.range 2).map (fun i => exM_2.getD i [])
        ++ (List.range 1).flatMap
            (fun p => (List.range 2).map (fun i => (exN_j.getD p []).getD i []))
        ++ (List.range 1).flatMap
            (fun p => (List.range 2).map (fun i => (exN_nj.getD p []).getD i []))
    ∧ (objEval exF 1 2 exM_1 exM_2 exN_j exN_nj).fM_1
      = (List.range 2).map (fun i => exF (exM_1.getD i []))
    ∧ (objEval exF 1 2 exM_1 exM_2 exN_j exN_nj).fM_2
      = (List.range 2).map (fun i => exF (exM_2.getD i []))
    ∧ (objEval exF 1 2 exM_1 exM_2 exN_j exN_nj).fN_j
      = (List.range 1).map
          (fun p => (List.range 2).map (fun i => exF ((exN_j.getD p []).getD i [])))
    ∧ (objEval exF 1 2 exM_1 exM_2 exN_j exN_nj).fN_nj
      = (List.range 1).map
          (fun p => (List.range 2).map (fun i => exF ((exN_nj.getD p []).getD i [])))) :=
  ⟨by decide, claim_C6 exF 1 2 exM_1 exM_2 exN_j exN_nj (by decide)⟩

/-! ### NaN reconciliation (claim C4) -/

theorem getD_take (x : List α) (n i : ℕ) (d : α) (h : i < n) :
    (x.take n).getD i d = x.getD i d := by
  rw [List.getD_eq_getElem?_getD, List.getElem?_take_of_lt h,
    ← List.getD_eq_getElem?_getD]

theorem getD_drop (x : List α) (a i : ℕ) (d : α) :
    (x.drop a).getD i d = x.getD (a + i) d := by
  rw [List.getD_eq_getElem?_getD, List.getElem?_drop, ← List.getD_eq_getElem?_getD]

theorem getD_drop_take (x : List α) (a n i : ℕ) (d : α) (hi : i < n) :
    ((x.drop a).take n).getD i d = x.getD (a + i) d := by
  rw [getD_take _ n i d hi, getD_drop]

theorem take_drop_length (x : List α) (a n : ℕ) (h : a + n ≤ x.length) :
    ((x.drop a).take n).length = n := by
  rw [List.length_take, List.length_drop]
  omega

theorem slice_bound (k n p : ℕ) (hp : p < k) : 2 * n + p * n + n ≤ 2 * n * (1 + k) := by
  have h1 : (p + 1) * n ≤ k * n := Nat.mul_le_mul_right n (by omega)
  nlinarith

theorem slice_bound2 (k n p : ℕ) (hp : p < k) :
    2 * n + k * n + p * n + n ≤ 2 * n * (1 + k) := by
  have h1 : (p + 1) * n ≤ k * n := Nat.mul_le_mul_right n (by omega)
  nlinarith

theorem getD_range (k p : ℕ) (h : p < k) : (List.range k).getD p 0 = p := by
  rw [List.getD_eq_getElem?_getD, List.getElem?_range h]
  rfl

theorem rows_isnanT (t : List (List PVal)) (m : ℕ)
    (h : ∀ r ∈ t, r.length = m) : ∀ r ∈ isnanT t, r.length = m := by
  intro r hr
  rcases List.mem_map.1 hr with ⟨s, hs, rfl⟩
  rw [List.length_map]
  exact h s hs

theorem length_orT (a b : List (List Bool)) :
    (orT a b).length = min a.length b.length :=
  List.length_zipWith _ _ _

theorem mem_orT_length (m : ℕ) :
    ∀ (a b : List (List Bool)), (∀ r ∈ a, r.length = m) → (∀ r ∈ b, r.length = m) →
      ∀ r ∈ orT a b, r.length = m
  | [], _, _, _ => by simp [orT]
  | _ :: _, [], _, _ => by simp [orT]
  | x :: a, y :: b, ha, hb => by
    intro r hr
    rw [show orT (x :: a) (y :: b) = List.zipWith (· || ·) x y :: orT a b from rfl] at hr
    rcases List.mem_cons.1 hr with h | h
    · subst h
      simp [List.length_zipWith, ha x (by simp), hb y (by simp)]
    · exact mem_orT_length m a b (fun s hs => ha s (by simp [hs]))
        (fun s hs => hb s (by simp [hs])) r h

theorem getD0_orT (a b : List (List Bool)) (i m : ℕ) (hm : 1 ≤ m)
    (ha : i < a.length) (hb : i < b.length)
    (hra : ∀ r ∈ a, r.length = m) (hrb : ∀ r ∈ b, r.length = m) :
    ((orT a b).getD i []).getD 0 false
      = (((a.getD i []).getD 0 false) || ((b.getD i []).getD 0 false)) := by
  rw [orT, getD_zipWith' (List.zipWith (· || ·)) [] [] [] a b i ha hb,
    getD_zipWith' (· || ·) false false false _ _ 0
      (by rw [hra _ (getD_mem a i [] ha)]; exact hm)
      (by rw [hrb _ (getD_mem b i [] hb)]; exact hm)]

theorem any_congrB (l : List α) (f g : α → Bool) (h : ∀ a ∈ l, f a = g a) :
    l.any f = l.any g := by
  induction l with
  | nil => rfl
  | cons a l ih =>
    rw [List.any_cons, List.any_cons, h a (by simp),
      ih (fun b hb => h b (by simp [hb]))]

theorem isnanT_getD0 (t : List (List PVal)) (m i : ℕ) (hm : 1 ≤ m)
    (hi : i < t.length) (hrows : ∀ r ∈ t, r.length = m) :
    ((isnanT t).getD i []).getD 0 false
      = ((t.getD i []).getD 0 (PVal.num 0)).isnan := by
  rw [isnanT, getD_map' (fun r => r.map PVal.isnan) [] [] t i hi,
    getD_map' PVal.isnan (PVal.num 0) false _ 0
      (by rw [hrows _ (getD_mem t i [] hi)]; exact hm)]

theorem fold_orT_char (m : ℕ) (hm : 1 ≤ m) (Nj Nnj : ℕ → List (List Bool)) :
    ∀ (ps : List ℕ) (acc : List (List Bool)),
      (∀ r ∈ acc, r.length = m) →
      (∀ p ∈ ps, (Nj p).length = acc.length ∧ (∀ r ∈ Nj p, r.length = m)
        ∧ (Nnj p).length = acc.length ∧ (∀ r ∈ Nnj p, r.length = m)) →
      (ps.foldl (fun a i => orT (orT a (Nj i)) (Nnj i)) acc).length = acc.length
      ∧ (∀ r ∈ ps.foldl (fun a i => orT (orT a (Nj i)) (Nnj i)) acc, r.length = m)
      ∧ (∀ i, i < acc.length →
          ((ps.foldl (fun a i => orT (orT a (Nj i)) (Nnj i)) acc).getD i []).getD 0 false
            = (((acc.getD i []).getD 0 false)
              || ps.any (fun p => (((Nj p).getD i []).getD 0 false)
                  || (((Nnj p).getD i []).getD 0 false))))
  | [], acc, hacc, _ => ⟨rfl, hacc, by simp⟩
  | p :: ps, acc, hacc, hps => by
    obtain ⟨hNjl, hNjm, hNnjl, hNnjm⟩ := hps p (by simp)
    have hlacc' : (orT (orT acc (Nj p)) (Nnj p)).length = acc.length := by
      rw [length_orT, length_orT, hNjl, hNnjl]
      simp
    have hracc' : ∀ r ∈ orT (orT acc (Nj p)) (Nnj p), r.length = m :=
      mem_orT_length m _ _ (mem_orT_length m _ _ hacc hNjm) hNnjm
    have hps' : ∀ q ∈ ps, (Nj q).length = (orT (orT acc (Nj p)) (Nnj p)).length
        ∧ (∀ r ∈ Nj q, r.length = m)
        ∧ (Nnj q).length = (orT (orT acc (Nj p)) (Nnj p)).length
        ∧ (∀ r ∈ Nnj q, r.length = m) := by
      intro q hq
      obtain ⟨a1, a2, a3, a4⟩ := hps q (by simp [hq])
      exact ⟨by rw [hlacc']; exact a1, a2, by rw [hlacc']; exact a3, a4⟩
    obtain ⟨ih1, ih2, ih3⟩ := fold_orT_char m hm Nj Nnj ps _ hracc' hps'
    refine ⟨?_, ?_, ?_⟩
    · rw [List.foldl_cons, ih1, hlacc']
    · rw [List.foldl_cons]
      exact ih2
    · intro i hi
      rw [List.foldl_cons, ih3 i (by rw [hlacc']; exact hi),
        getD0_orT _ _ i m hm (by rw [length_orT, hNjl, Nat.min_self]; exact hi)
          (by rw [hNnjl]; exact hi)
          (mem_orT_length m _ _ hacc hNjm) hNnjm,
        getD0_orT _ _ i m hm hi (by rw [hNjl]; exact hi) hacc hNjm,
        List.any_cons]
      simp [Bool.or_assoc]

theorem fst_lt_of_mem_enum {l : List α} {pr : ℕ × α} (h : pr ∈ l.enum) :
    pr.1 < l.length := by
  rw [List.mem_enum_iff_getElem?] at h
  obtain ⟨hlt, _⟩ := List.getElem?_eq_some.1 h
  exact hlt

theorem deleteIdx_eq_keepRows (nans : List ℕ) (flag : ℕ → Bool) (t : List α)
    (h : ∀ i, i < t.length → nans.contains i = flag i) :
    deleteIdx nans t = keepRows flag t := by
  rw [deleteIdx, keepRows]
  congr 1
  apply List.filter_congr
  intro pr hpr
  rw [h pr.1 (fst_lt_of_mem_enum hpr)]

theorem contains_filter_range (n i : ℕ) (q : ℕ → Bool) (hi : i < n) :
    ((List.range n).filter q).contains i = q i := by
  simp [List.elem_eq_mem, List.mem_filter, List.mem_range, hi]

theorem length_keepRows (flag : ℕ → Bool) (t : List α) :
    (keepRows flag t).length
      = List.countP (fun i => !flag i) (List.range t.length) := by
  rw [keepRows, List.length_map, ← List.countP_eq_length_filter]
  have he : t.enum.map Prod.fst = List.range t.length := by simp
  rw [← he, List.countP_map]
  rfl

theorem nanRows_loadPre (k n m : ℕ) (hm : 1 ≤ m) (x : List (List PVal))
    (hL : x.length = 2 * n * (1 + k)) (hrows : ∀ r ∈ x, r.length = m) :
    (loadPre k n x).nanRows = (List.range n).filter (nanFlagSpec k n x) := by
  have hxn : n ≤ x.length := by
    rw [hL]
    calc n ≤ n + (n + 2 * n * k) := Nat.le_add_right _ _
      _ = 2 * n * (1 + k) := by ring
  have hx2n : 2 * n ≤ x.length := by
    rw [hL]
    calc 2 * n ≤ 2 * n + 2 * n * k := Nat.le_add_right _ _
      _ = 2 * n * (1 + k) := by ring
  have hA1len : (x.take n).length = n := by
    rw [List.length_take]
    omega
  have hA2len : ((x.drop n).take n).length = n :=
    take_drop_length x n n (by omega)
  have hA1rows : ∀ r ∈ x.take n, r.length = m :=
    fun r hr => hrows r (List.mem_of_mem_take hr)
  have hA2rows : ∀ r ∈ (x.drop n).take n, r.length = m :=
    fun r hr => hrows r (List.mem_of_mem_drop (List.mem_of_mem_take hr))
  have hNslice : ∀ p, p < k →
      (loadPre k n x).fN_j.getD p [] = (x.drop (2 * n + p * n)).take n := by
    intro p hp
    rw [show (loadPre k n x).fN_j
        = (List.range k).map (fun p => (x.drop (2 * n + p * n)).take n) from rfl,
      getD_map' (fun p => (x.drop (2 * n + p * n)).take n) 0 [] _ p
        (by simpa using hp), getD_range k p hp]
  have hNslice2 : ∀ p, p < k →
      (loadPre k n x).fN_nj.getD p [] = (x.drop (2 * n + k * n + p * n)).take n := by
    intro p hp
    rw [show (loadPre k n x).fN_nj
        = (List.range k).map (fun p => (x.drop (2 * n + k * n + p * n)).take n) from rfl,
      getD_map' (fun p => (x.drop (2 * n + k * n + p * n)).take n) 0 [] _ p
        (by simpa using hp), getD_range k p hp]
  have hacc_len : (orT (isnanT (x.take n)) (isnanT ((x.drop n).take n))).length = n := by
    rw [length_orT, isnanT, isnanT, List.length_map, List.length_map, hA1len, hA2len,
      Nat.min_self]
  have hacc_rows : ∀ r ∈ orT (isnanT (x.take n)) (isnanT ((x.drop n).take n)),
      r.length = m :=
    mem_orT_length m _ _ (rows_isnanT _ m hA1rows) (rows_isnanT _ m hA2rows)
  have hfold := fold_orT_char m hm
    (fun i => isnanT ((loadPre k n x).fN_j.getD i []))
    (fun i => isnanT ((loadPre k n x).fN_nj.getD i []))
    (List.range k) (orT (isnanT (x.take n)) (isnanT ((x.drop n).take n)))
    hacc_rows
    (by
      intro p hp
      have hpk : p < k := List.mem_range.1 hp
      dsimp only
      rw [hNslice p hpk, hNslice2 p hpk]
      refine ⟨?_, rows_isnanT _ m
          (fun r hr => hrows r (List.mem_of_mem_drop (List.mem_of_mem_take hr))),
        ?_, rows_isnanT _ m
          (fun r hr => hrows r (List.mem_of_mem_drop (List.mem_of_mem_take hr)))⟩
      · rw [isnanT, List.length_map, hacc_len,
          take_drop_length x (2 * n + p * n) n (by rw [hL]; exact slice_bound k n p hpk)]
      · rw [isnanT, List.length_map, hacc_len,
          take_drop_length x (2 * n + k * n + p * n) n
            (by rw [hL]; exact slice_bound2 k n p hpk)])
  obtain ⟨hf1, _, hf3⟩ := hfold
  have hofold_len : (ObjState.orFold (loadPre k n x)).length = n := by
    rw [show ObjState.orFold (loadPre k n x)
        = (List.range k).foldl
          (fun a i => orT (orT a (isnanT ((loadPre k n x).fN_j.getD i [])))
            (isnanT ((loadPre k n x).fN_nj.getD i [])))
          (orT (isnanT (x.take n)) (isnanT ((x.drop n).take n))) from rfl,
      hf1, hacc_len]
  rw [ObjState.nanRows, List.length_map, hofold_len]
  apply List.filter_congr
  intro i hi
  have hin : i < n := List.mem_range.1 hi
  rw [getD_map' (fun r : List Bool => r.getD 0 false) [] false _ i
    (by rw [hofold_len]; exact hin)]
  rw [show ObjState.orFold (loadPre k n x)
      = (List.range k).foldl
        (fun a i => orT (orT a (isnanT ((loadPre k n x).fN_j.getD i [])))
          (isnanT ((loadPre k n x).fN_nj.getD i [])))
        (orT (isnanT (x.take n)) (isnanT ((x.drop n).take n))) from rfl,
    hf3 i (by rw [hacc_len]; exact hin),
    getD0_orT _ _ i m hm
      (by rw [isnanT, List.length_map, hA1len]; exact hin)
      (by rw [isnanT, List.length_map, hA2len]; exact hin)
      (rows_isnanT _ m hA1rows) (rows_isnanT _ m hA2rows),
    isnanT_getD0 _ m i hm (by rw [hA1len]; exact hin) hA1rows,
    isnanT_getD0 _ m i hm (by rw [hA2len]; exact hin) hA2rows,
    getD_take x n i [] hin, getD_drop_take x n n i [] hin]
  rw [nanFlagSpec]
  have hany : (List.range k).any
      (fun p => (((isnanT ((loadPre k n x).fN_j.getD p [])).getD i []).getD 0 false)
        || (((isnanT ((loadPre k n x).fN_nj.getD p [])).getD i []).getD 0 false))
      = (List.range k).any (fun p =>
        ((x.getD (2 * n + p * n + i) []).getD 0 (PVal.num 0)).isnan
          || ((x.getD (2 * n + k * n + p * n + i) []).getD 0 (PVal.num 0)).isnan) := by
    apply any_congrB
    intro p hp
    have hpk : p < k := List.mem_range.1 hp
    rw [hNslice p hpk, hNslice2 p hpk,
      isnanT_getD0 _ m i hm
        (by rw [take_drop_length x (2 * n + p * n) n
          (by rw [hL]; exact slice_bound k n p hpk)]; exact hin)
        (fun r hr => hrows r (List.mem_of_mem_drop (List.mem_of_mem_take hr))),
      isnanT_getD0 _ m i hm
        (by rw [take_drop_length x (2 * n + k * n + p * n) n
          (by rw [hL]; exact slice_bound2 k n p hpk)]; exact hin)
        (fun r hr => hrows r (List.mem_of_mem_drop (List.mem_of_mem_take hr))),
      getD_drop_take x (2 * n + p * n) n i _ hin,
      getD_drop_take x (2 * n + k * n + p * n) n i _ hin]
  rw [hany]

/-- Claim C4 (amended): after loading (from an array or from file), the
rows deleted from the four tables are exactly those whose FIRST output
component is NaN — in the strict `numpy.isnan` sense, so infinities are
not pruned and components other than the first are not inspected — in
any of `fM_1[i]`, `fM_2[i]`, `fN_j[p][i]`, `fN_nj[p][i]`; the same index
set is removed from every table, leaving all four with the same
post-prune sample count.  (On the fresh-evaluation path of
`Objective.__init__` no reconciliation is performed at all.) -/
theorem claim_C4 (k n m : ℕ) (x : List (List PVal)) (o : ObjState)
    (hload : objLoad k n x = some o)
    (hrows : ∀ r ∈ x, r.length = m) (hm : 1 ≤ m) :
    o.fM_1 = keepRows (nanFlagSpec k n x) (x.take n)
    ∧ o.fM_2 = keepRows (nanFlagSpec k n x) ((x.drop n).take n)
    ∧ o.fN_j = (List.range k).map
        (fun p => keepRows (nanFlagSpec k n x) ((x.drop (2 * n + p * n)).take n))
    ∧ o.fN_nj = (List.range k).map
        (fun p => keepRows (nanFlagSpec k n x) ((x.drop (2 * n + k * n + p * n)).take n))
    ∧ o.fM_2.length = o.fM_1.length
    ∧ (∀ t ∈ o.fN_j, t.length = o.fM_1.length)
    ∧ (∀ t ∈ o.fN_nj, t.length = o.fM_1.length) := by
  rw [objLoad] at hload
  by_cases hL : x.length = 2 * n * (1 + k)
  case neg =>
    rw [if_neg hL] at hload
    exact absurd hload (by simp)
  rw [if_pos hL] at hload
  obtain rfl : (loadPre k n x).reconcile = o := Option.some.inj hload
  have hxn : n ≤ x.length := by
    rw [hL]
    calc n ≤ n + (n + 2 * n * k) := Nat.le_add_right _ _
      _ = 2 * n * (1 + k) := by ring
  have hx2n : 2 * n ≤ x.length := by
    rw [hL]
    calc 2 * n ≤ 2 * n + 2 * n * k := Nat.le_add_right _ _
      _ = 2 * n * (1 + k) := by ring
  have hA1len : (x.take n).length = n := by
    rw [List.length_take]
    omega
  have hA2len : ((x.drop n).take n).length = n :=
    take_drop_length x n n (by omega)
  have hnr := nanRows_loadPre k n m hm x hL hrows
  have hdel : ∀ (t : List (List PVal)), t.length = n →
      deleteIdx (loadPre k n x).nanRows t = keepRows (nanFlagSpec k n x) t := by
    intro t ht
    apply deleteIdx_eq_keepRows
    intro i hi
    rw [hnr, contains_filter_range n i _ (by omega)]
  have e1 : (loadPre k n x).reconcile.fM_1 = keepRows (nanFlagSpec k n x) (x.take n) :=
    hdel _ hA1len
  have e2 : (loadPre k n x).reconcile.fM_2
      = keepRows (nanFlagSpec k n x) ((x.drop n).take n) :=
    hdel _ hA2len
  have e3 : (loadPre k n x).reconcile.fN_j = (List.range k).map
      (fun p => keepRows (nanFlagSpec k n x) ((x.drop (2 * n + p * n)).take n)) := by
    rw [show (loadPre k n x).reconcile.fN_j
        = ((List.range k).map (fun p => (x.drop (2 * n + p * n)).take n)).map
            (deleteIdx (loadPre k n x).nanRows) from rfl,
      List.map_map]
    apply List.map_congr_left
    intro p hp
    have hpk : p < k := List.mem_range.1 hp
    exact hdel _ (take_drop_length x _ n (by rw [hL]; exact slice_bound k n p hpk))
  have e4 : (loadPre k n x).reconcile.fN_nj = (List.range k).map
      (fun p => keepRows (nanFlagSpec k n x) ((x.drop (2 * n + k * n + p * n)).take n)) := by
    rw [show (loadPre k n x).reconcile.fN_nj
        = ((List.range k).map (fun p => (x.drop (2 * n + k * n + p * n)).take n)).map
            (deleteIdx (loadPre k n x).nanRows) from rfl,
      List.map_map]
    apply List.map_congr_left
    intro p hp
    have hpk : p < k := List.mem_range.1 hp
    exact hdel _ (take_drop_length x _ n (by rw [hL]; exact slice_bound2 k n p hpk))
  refine ⟨e1, e2, e3, e4, ?_, ?_, ?_⟩
  · rw [e1, e2, length_keepRows, length_keepRows, hA1len, hA2len]
  · intro t ht
    rw [e3] at ht
    rcases List.mem_map.1 ht with ⟨p, hp, rfl⟩
    have hpk : p < k := List.mem_range.1 hp
    rw [e1, length_keepRows, length_keepRows, hA1len,
      take_drop_length x _ n (by rw [hL]; exact slice_bound k n p hpk)]
  · intro t ht
    rw [e4] at ht
    rcases List.mem_map.1 ht with ⟨p, hp, rfl⟩
    have hpk : p < k := List.mem_range.1 hp
    rw [e1, length_keepRows, length_keepRows, hA1len,
      take_drop_length x _ n (by rw [hL]; exact slice_bound2 k n p hpk)]

/-- Claim C4 counterexample: loading `exX4`, whose row 0 holds an
infinity (non-finite but not NaN), prunes nothing: the reconciled
`fM_1` still has both rows and still contains the non-finite value, so
the non-finite row was not deleted as the claim requires. -/
theorem claim_C4_counterexample :
    objLoad 1 2 exX4 = some exO4
    ∧ exO4.fM_1.length = 2
    ∧ (exO4.fM_1.getD 0 []).getD 0 (PVal.num 0) = PVal.inf
    ∧ PVal.isfinite ((exO4.fM_1.getD 0 []).getD 0 (PVal.num 0)) = false :=
  ⟨by decide, by decide, by decide, by decide⟩

/-- Claim C4 witness: the amended statement evaluated on the concrete
load `exX` (`k = 1`, `n = 3`, one NaN row). -/
theorem claim_C4_witness :
    objLoad 1 3 exX = some exO
    ∧ (∀ r ∈ exX, r.length = 1)
    ∧ 1 ≤ 1
    ∧ (exO.fM_1 = keepRows (nanFlagSpec 1 3 exX) (exX.take 3)
    ∧ exO.fM_2 = keepRows (nanFlagSpec 1 3 exX) ((exX.drop 3).take 3)
    ∧ exO.fN_j = (List.range 1).map
        (fun p => keepRows (nanFlagSpec 1 3 exX) ((exX.drop (2 * 3 + p * 3)).take 3))
    ∧ exO.fN_nj = (List.range 1).map
        (fun p => keepRows (nanFlagSpec 1 3 exX) ((exX.drop (2 * 3 + 1 * 3 + p * 3)).take 3))
    ∧ exO.fM_2.length = exO.fM_1.length
    ∧ (∀ t ∈ exO.fN_j, t.length = exO.fM_1.length)
    ∧ (∀ t ∈ exO.fN_nj, t.length = exO.fM_1.length)) :=
  ⟨by decide, by decide, by decide,
    claim_C4 1 3 1 exX exO (by decide) (by decide) (by decide)⟩

end Saltelli
